import Mathlib

/-!
Shallow embedding of the analytics aggregation of the business-dashboard
backend (`analytics_overview` in `src/main.py`, with the line-item shapes of
`src/schemas.py`), together with theorems settling the specification's claims
about it.

Modelling conventions:
* Python/Mongo floats are modelled as exact rationals (`Rat`); `round(x, 2)`
  is modelled as decimal rounding to two places (`round2`).
* BSON datetimes are modelled as `Timestamp` (calendar date plus seconds
  within the day), ordered chronologically; `datetime.fromisoformat` applied
  to a plain `YYYY-MM-DD` string yields the midnight timestamp of that date.
* Mongo day strings (`$dateToString` with format `%Y-%m-%d`) are modelled as
  `List Char` with the lexicographic order (`List.Lex`), which is exactly how
  Python compares the strings when sorting the trend.
* The `$group` stage groups unwound line-item rows by `(day, category)`; the
  Python code then re-accumulates the per-group sums into per-category and
  per-day maps and a grand total.  Because addition is associative and
  commutative and the group emission order of the source database is
  unspecified, this composite is modelled by accumulating the rows directly,
  in row order (the canonical determinization of the unspecified iteration
  order).
* Python's `sorted` is a stable sort; it is modelled by `List.insertionSort`,
  which is stable for the same total preorder and therefore produces the same
  list.
* The surrounding endpoint wraps the whole computation in
  `try: ... except Exception: pass` and falls back to a fixed placeholder
  summary; failure sources (a malformed date string raising in
  `fromisoformat`, an unavailable or failing database) are modelled by
  `DateArg` and `DbState`.
-/

set_option maxRecDepth 8000

namespace Dashboard

/-- Calendar date (year, month, day). -/
structure Date where
  year : Nat
  month : Nat
  day : Nat
deriving DecidableEq

/-- A point in time: a calendar date plus the seconds elapsed within that
day.  `order_date` values are timestamps. -/
structure Timestamp where
  date : Date
  secs : Nat
deriving DecidableEq

/-- Chronological strict order on dates (lexicographic on year, month, day). -/
def dateLtB (a b : Date) : Bool :=
  if a.year < b.year then true
  else if b.year < a.year then false
  else if a.month < b.month then true
  else if b.month < a.month then false
  else decide (a.day < b.day)

/-- Chronological order on timestamps, as used by the `$gte`/`$lte`
comparisons of the order-date filter. -/
def tsLeB (a b : Timestamp) : Bool :=
  if dateLtB a.date b.date then true
  else if dateLtB b.date a.date then false
  else decide (a.secs ≤ b.secs)

/-- Parsing via `datetime.fromisoformat` of a plain `YYYY-MM-DD` string: midnight of the
given calendar date. -/
def midnight (d : Date) : Timestamp := ⟨d, 0⟩

/-- Line item of an order (`OrderItem` in `src/schemas.py`).  The schema has
no `category` field; the aggregation nevertheless reads `items.category`, so
the embedding carries it as an optional field (`none` = absent from the
document, as for every schema-conforming item). -/
structure OrderItem where
  product_id : String
  quantity : Nat
  price : Rat
  category : Option String
deriving DecidableEq

/-- An order document (`Order` in `src/schemas.py`); `id` models the Mongo
`_id`. -/
structure Order where
  id : Nat
  customer_id : String
  items : List OrderItem
  status : String
  order_date : Timestamp
deriving DecidableEq

/-- The three optional query parameters of `analytics_overview`, with date
strings already parsed. -/
structure Filters where
  start_date : Option Date
  end_date : Option Date
  category : Option String

/-- Python truthiness of the `category` parameter: `if category:` treats both
`None` and the empty string as no filter. -/
def activeCat (f : Filters) : Option String :=
  match f.category with
  | none => none
  | some c => if c = "" then none else some c

/-- The `order_date` part of the `$match` filter: `$gte` midnight of
`start_date` and `$lte` midnight of `end_date`, whichever bounds are
present. -/
def dateOk (f : Filters) (o : Order) : Bool :=
  (match f.start_date with
   | none => true
   | some s => tsLeB (midnight s) o.order_date) &&
  (match f.end_date with
   | none => true
   | some e => tsLeB o.order_date (midnight e))

/-- The `items.category` part of the `$match` filter: the order matches when
at least one of its items carries exactly the filtered category. -/
def catOk (f : Filters) (o : Order) : Bool :=
  match activeCat f with
  | none => true
  | some c => o.items.any (fun it => decide (it.category = some c))

/-- The complete `$match` stage. -/
def matchFilter (f : Filters) (o : Order) : Bool := dateOk f o && catOk f o

/-- Fixed-width `Nat.digitChar`-based decimal rendering, most significant
digit first (zero padded). -/
def padDigits : Nat → Nat → List Char
  | 0, _ => []
  | k+1, n => padDigits k (n / 10) ++ [Nat.digitChar (n % 10)]

/-- Rendering of `$dateToString` with format `%Y-%m-%d`: the ISO `YYYY-MM-DD` rendering of
a date. -/
def dateToString (d : Date) : List Char :=
  padDigits 4 d.year ++ '-' :: (padDigits 2 d.month ++ '-' :: padDigits 2 d.day)

/-- One unwound line-item row after `$unwind` and `$addFields`: the owning
order id, the order's day string, the item's category and the line total. -/
structure Row where
  oid : Nat
  day : List Char
  cat : Option String
  total : Rat
deriving DecidableEq

/-- The `line_total` field: `items.quantity * items.price`. -/
def lineTotal (it : OrderItem) : Rat := (it.quantity : Rat) * it.price

/-- Unwinding (`$unwind`) of one order: one row per line item (an order with no items
yields no rows). -/
def rowsOfOrder (o : Order) : List Row :=
  o.items.map (fun it => ⟨o.id, dateToString o.order_date.date, it.category, lineTotal it⟩)

/-- The rows emitted by the pipeline: match, then unwind every item of every
matching order. -/
def rows (f : Filters) (orders : List Order) : List Row :=
  (orders.filter (matchFilter f)).flatMap rowsOfOrder

/-- Accumulate `v` into the entry of `k` of an insertion-ordered association
map (Python `m[k] = m.get(k, 0) + v`). -/
def addToMap {α : Type} [DecidableEq α] (m : List (α × Rat)) (k : α) (v : Rat) :
    List (α × Rat) :=
  match m with
  | [] => [(k, v)]
  | (k', v') :: rest => if k = k' then (k', v' + v) :: rest else (k', v') :: addToMap rest k v

/-- Evaluation of `r["_id"].get("category") or "Unknown"`: a missing category — and, by
Python truthiness, an empty one — is bucketed under the literal string
`"Unknown"`. -/
def unknownize : Option String → String
  | none => "Unknown"
  | some c => if c = "" then "Unknown" else c

/-- The `cat_map` accumulator: per-category sales, keyed by the unknownized category, in
first-occurrence order. -/
def catMap (rs : List Row) : List (String × Rat) :=
  rs.foldl (fun m r => addToMap m (unknownize r.cat) r.total) []

/-- The `trend_map` accumulator: per-day sales, keyed by the day string, in first-occurrence
order. -/
def trendMap (rs : List Row) : List (List Char × Rat) :=
  rs.foldl (fun m r => addToMap m r.day r.total) []

/-- Rounding to two decimal places, modelling Python `round(x, 2)`. -/
def round2 (q : Rat) : Rat := ((⌊q * 100 + 1/2⌋ : Int) : Rat) / 100

/-- One entry of the `top_categories` output. -/
structure CatEntry where
  category : String
  sales : Rat
deriving DecidableEq

/-- One entry of the `trend` output. -/
structure TrendEntry where
  date : List Char
  sales : Rat
deriving DecidableEq

/-- The response shape of `analytics_overview` (`AnalyticsResponse` in
`src/main.py`). -/
structure AnalyticsResponse where
  total_sales : Rat
  orders_count : Nat
  avg_order_value : Rat
  top_categories : List CatEntry
  trend : List TrendEntry
deriving DecidableEq

/-- Sort key of the category list: descending by (rounded) sales
(`key=lambda x: x["sales"], reverse=True`). -/
def catGe (a b : CatEntry) : Prop := b.sales ≤ a.sales

instance : DecidableRel catGe := fun a b => inferInstanceAs (Decidable (b.sales ≤ a.sales))

instance : IsTotal CatEntry catGe := ⟨fun a b => le_total b.sales a.sales⟩

instance : IsTrans CatEntry catGe := ⟨fun _ _ _ h₁ h₂ => le_trans h₂ h₁⟩

/-- Sort key of the trend: ascending lexicographically by day string (the
keys of `trend_map` are distinct, so Python's tuple comparison reduces to the
day string). -/
def dayLe (p q : List Char × Rat) : Prop := p.1 ≤ q.1

instance : DecidableRel dayLe := fun p q => inferInstanceAs (Decidable (p.1 ≤ q.1))

instance : IsTotal (List Char × Rat) dayLe := ⟨fun p q => le_total p.1 q.1⟩

instance : IsTrans (List Char × Rat) dayLe := ⟨fun _ _ _ h₁ h₂ => le_trans h₁ h₂⟩

/-- The per-category entries before sorting: each sales value rounded to two
decimals. -/
def catEntries (cm : List (String × Rat)) : List CatEntry :=
  cm.map (fun p => ⟨p.1, round2 p.2⟩)

/-- The `top_categories` list: sort the rounded entries descending by sales (stable)
and keep the first five. -/
def topCategories (cm : List (String × Rat)) : List CatEntry :=
  (List.insertionSort catGe (catEntries cm)).take 5

/-- The `trend` list: the per-day entries sorted ascending by day string, each value
rounded to two decimals. -/
def trendOut (tm : List (List Char × Rat)) : List TrendEntry :=
  (List.insertionSort dayLe tm).map (fun p => ⟨p.1, round2 p.2⟩)

/-- The `total_sales` value before rounding: the sum of all line totals. -/
def totalSalesRaw (rs : List Row) : Rat := (rs.map Row.total).sum

/-- The `orders_count` value: the number of distinct order ids contributing at least
one row. -/
def ordersCount (rs : List Row) : Nat := (rs.map Row.oid).dedup.length

/-- The successful branch of `analytics_overview`: the pure aggregation over
the fetched orders. -/
def analytics_overview (f : Filters) (orders : List Order) : AnalyticsResponse :=
  let rs := rows f orders
  let total := totalSalesRaw rs
  let cnt := ordersCount rs
  { total_sales := round2 total
    orders_count := cnt
    avg_order_value := if cnt = 0 then 0 else round2 (total / (cnt : Rat))
    top_categories := topCategories (catMap rs)
    trend := trendOut (trendMap rs) }

/-- A well-formed calendar date as produced by `fromisoformat` /
`$dateToString`: four-digit year, real month and day ranges. -/
def validDate (d : Date) : Prop :=
  d.year < 10000 ∧ 0 < d.month ∧ d.month ≤ 12 ∧ 0 < d.day ∧ d.day ≤ 31

instance (d : Date) : Decidable (validDate d) := by
  unfold validDate; infer_instance

/-- An optional raw date query parameter: absent, present and parsing to a
date, or present but malformed (so that `fromisoformat` raises). -/
inductive DateArg
  | absent
  | valid (d : Date)
  | malformed
deriving DecidableEq

/-- The state of the database handle: `db is None`, a connected handle whose
`aggregate` call raises, or a working handle over a list of orders. -/
inductive DbState
  | unavailable
  | failing
  | ready (orders : List Order)

/-- Evaluate a raw date argument: `none` models `fromisoformat` raising. -/
def parseDateArg : DateArg → Option (Option Date)
  | .absent => some none
  | .valid d => some (some d)
  | .malformed => none

/-- The fixed fallback summary returned whenever the guarded block does not
return (lines 312-327 of `src/main.py`). -/
def placeholderResponse : AnalyticsResponse where
  total_sales := 7500
  orders_count := 42
  avg_order_value := round2 ((7500 : Rat) / 42)
  top_categories := [⟨"subscriptions", 3200⟩, ⟨"hardware", 2300⟩]
  trend := ["2025-11-01".data, "2025-11-02".data, "2025-11-03".data,
    "2025-11-04".data, "2025-11-05".data].zipWith (fun d s => ⟨d, s⟩)
    [1200, 1800, 900, 1500, 2100]

/-- The whole `analytics_overview` endpoint: parse the date arguments, run
the aggregation when the database is usable, and fall back to the placeholder
when a date is malformed, the handle is `None`, or the aggregation raises. -/
def analytics_endpoint (dbs : DbState) (sd ed : DateArg) (cat : Option String) :
    AnalyticsResponse :=
  match parseDateArg sd, parseDateArg ed with
  | some s, some e =>
    (match dbs with
     | .ready orders => analytics_overview ⟨s, e, cat⟩ orders
     | _ => placeholderResponse)
  | _, _ => placeholderResponse

/-! ### Concrete fixtures used to evaluate the aggregation on closed inputs -/

/-- No filters at all. -/
def fNone : Filters := ⟨none, none, none⟩

/-- Category filter `"A"` only. -/
def fCatA : Filters := ⟨none, none, some "A"⟩

/-- End-date bound `2025-11-02` only. -/
def fEnd : Filters := ⟨none, some ⟨2025, 11, 2⟩, none⟩

/-- A single-item order of value 130 in category `"A"`. -/
def oSimple : Order := ⟨1, "c1", [⟨"p1", 1, 130, some "A"⟩], "paid", ⟨⟨2025, 11, 1⟩, 0⟩⟩

/-- An order with one `"A"` item worth 100 and one `"B"` item worth 30. -/
def oMixed : Order := ⟨1, "c1", [⟨"p1", 2, 50, some "A"⟩, ⟨"p2", 1, 30, some "B"⟩],
  "paid", ⟨⟨2025, 11, 1⟩, 0⟩⟩

/-- An order containing no `"A"` item at all. -/
def oNoA : Order := ⟨2, "c2", [⟨"p3", 1, 40, some "B"⟩], "paid", ⟨⟨2025, 11, 1⟩, 0⟩⟩

/-- An order timestamped at 01:00 on `2025-11-02` (one hour after midnight of
the end-date bound of `fEnd`). -/
def oLate : Order := ⟨1, "c1", [⟨"p1", 1, 10, some "A"⟩], "paid", ⟨⟨2025, 11, 2⟩, 3600⟩⟩

/-- An order whose items conform to the `OrderItem` schema: no category. -/
def oPlain : Order := ⟨3, "c3", [⟨"p9", 2, 25, none⟩], "paid", ⟨⟨2025, 11, 3⟩, 0⟩⟩

/-- An order with six items in six distinct categories. -/
def oSix : Order := ⟨4, "c4",
  [⟨"q1", 1, 60, some "A"⟩, ⟨"q2", 1, 50, some "B"⟩, ⟨"q3", 1, 40, some "C"⟩,
   ⟨"q4", 1, 30, some "D"⟩, ⟨"q5", 1, 20, some "E"⟩, ⟨"q6", 1, 10, some "F"⟩],
  "paid", ⟨⟨2025, 11, 1⟩, 0⟩⟩

/-! ### Evaluation of the rounding function -/

theorem round2_eq (q : Rat) (n : Int) (h₁ : (n : Rat) ≤ q * 100 + 1/2)
    (h₂ : q * 100 + 1/2 < (n : Rat) + 1) : round2 q = (n : Rat) / 100 := by
  unfold round2
  rw [Int.floor_eq_iff.mpr ⟨h₁, by exact_mod_cast h₂⟩]

theorem round2_int (n : Int) : round2 ((n : Rat)) = (n : Rat) := by
  rw [round2_eq ((n : Rat)) (n * 100) (by push_cast; linarith) (by push_cast; linarith)]
  push_cast
  field_simp

theorem round2_zero : round2 0 = 0 := by
  simpa using round2_int 0

/-! ### Accumulation lemmas for the insertion-ordered association maps -/

theorem addToMap_sum {α : Type} [DecidableEq α] (m : List (α × Rat)) (k : α) (v : Rat) :
    ((addToMap m k v).map Prod.snd).sum = (m.map Prod.snd).sum + v := by
  induction m with
  | nil => simp [addToMap]
  | cons p rest ih =>
    obtain ⟨k', v'⟩ := p
    by_cases h : k = k' <;> simp [addToMap, h, ih] <;> ring

theorem foldl_addToMap_sum {α : Type} [DecidableEq α] (κ : Row → α) :
    ∀ (rs : List Row) (m : List (α × Rat)),
      ((rs.foldl (fun m r => addToMap m (κ r) r.total) m).map Prod.snd).sum
        = (m.map Prod.snd).sum + (rs.map Row.total).sum
  | [], m => by simp
  | r :: rs, m => by
    have ih := foldl_addToMap_sum κ rs (addToMap m (κ r) r.total)
    simp only [List.foldl_cons] at ih ⊢
    rw [ih, addToMap_sum]
    simp
    ring

theorem catMap_sum (rs : List Row) :
    ((catMap rs).map Prod.snd).sum = (rs.map Row.total).sum := by
  simpa [catMap] using foldl_addToMap_sum (fun r => unknownize r.cat) rs []

theorem trendMap_sum (rs : List Row) :
    ((trendMap rs).map Prod.snd).sum = (rs.map Row.total).sum := by
  simpa [trendMap] using foldl_addToMap_sum (fun r => r.day) rs []

theorem mem_addToMap {α : Type} [DecidableEq α] {p : α × Rat} :
    ∀ {m : List (α × Rat)} {k : α} {v : Rat}, p ∈ addToMap m k v → p.1 = k ∨ p ∈ m := by
  intro m
  induction m with
  | nil => intro k v h; simp [addToMap] at h; simp [h]
  | cons q rest ih =>
    intro k v h
    obtain ⟨k', v'⟩ := q
    by_cases hk : k = k'
    · simp [addToMap, hk] at h
      rcases h with h | h
      · exact Or.inl (by simp [h, hk])
      · exact Or.inr (by simp [h])
    · simp [addToMap, hk] at h
      rcases h with h | h
      · exact Or.inr (by simp [h])
      · rcases ih h with h' | h'
        · exact Or.inl h'
        · exact Or.inr (by simp [h'])

theorem addToMap_keys {α : Type} [DecidableEq α] (m : List (α × Rat)) (k : α) (v : Rat) :
    (addToMap m k v).map Prod.fst
      = if k ∈ m.map Prod.fst then m.map Prod.fst else m.map Prod.fst ++ [k] := by
  induction m with
  | nil => simp [addToMap]
  | cons q rest ih =>
    obtain ⟨k', v'⟩ := q
    by_cases hk : k = k'
    · simp [addToMap, hk]
    · simp only [addToMap, if_neg hk, List.map_cons, ih]
      by_cases hmem : k ∈ rest.map Prod.fst
      · simp [hmem, Ne.symm, hk]
      · simp [hmem, hk]

theorem addToMap_keys_nodup {α : Type} [DecidableEq α] {m : List (α × Rat)} (k : α) (v : Rat)
    (h : (m.map Prod.fst).Nodup) : ((addToMap m k v).map Prod.fst).Nodup := by
  rw [addToMap_keys]
  by_cases hmem : k ∈ m.map Prod.fst
  · simpa [hmem] using h
  · simp only [if_neg hmem]
    have := h.concat hmem
    simpa [List.concat_eq_append] using this

theorem foldl_addToMap_keys_nodup {α : Type} [DecidableEq α] (κ : Row → α) :
    ∀ (rs : List Row) (m : List (α × Rat)), (m.map Prod.fst).Nodup →
      ((rs.foldl (fun m r => addToMap m (κ r) r.total) m).map Prod.fst).Nodup
  | [], _, h => h
  | r :: rs, m, h => by
    simp only [List.foldl_cons]
    exact foldl_addToMap_keys_nodup κ rs _ (addToMap_keys_nodup _ _ h)

theorem catMap_keys_nodup (rs : List Row) : ((catMap rs).map Prod.fst).Nodup := by
  simpa [catMap] using
    foldl_addToMap_keys_nodup (fun r => unknownize r.cat) rs [] (by simp)

theorem foldl_addToMap_mem {α : Type} [DecidableEq α] (κ : Row → α) :
    ∀ (rs : List Row) (m : List (α × Rat)) (p : α × Rat),
      p ∈ rs.foldl (fun m r => addToMap m (κ r) r.total) m →
        p ∈ m ∨ ∃ r ∈ rs, p.1 = κ r
  | [], _, _, h => Or.inl h
  | r :: rs, m, p, h => by
    simp only [List.foldl_cons] at h
    rcases foldl_addToMap_mem κ rs _ p h with h' | ⟨r', hr', hk⟩
    · rcases mem_addToMap h' with hk | hm
      · exact Or.inr ⟨r, by simp, hk⟩
      · exact Or.inl hm
    · exact Or.inr ⟨r', by simp [hr'], hk⟩

theorem mem_catMap_key (rs : List Row) {p : String × Rat} (h : p ∈ catMap rs) :
    ∃ r ∈ rs, p.1 = unknownize r.cat := by
  have := foldl_addToMap_mem (fun r => unknownize r.cat) rs [] p (by simpa [catMap] using h)
  simpa using this

/-! ### Rows of the pipeline -/

theorem rows_cons_of_neg {f : Filters} {o : Order} (h : matchFilter f o = false)
    (l : List Order) : rows f (o :: l) = rows f l := by
  simp [rows, List.filter_cons, h]

theorem rows_cons_of_pos {f : Filters} {o : Order} (h : matchFilter f o = true)
    (l : List Order) : rows f (o :: l) = rowsOfOrder o ++ rows f l := by
  simp [rows, List.filter_cons, h]

theorem rows_append (f : Filters) (l₁ l₂ : List Order) :
    rows f (l₁ ++ l₂) = rows f l₁ ++ rows f l₂ := by
  simp [rows, List.filter_append]

theorem analytics_congr_rows {f : Filters} {os₁ os₂ : List Order}
    (h : rows f os₁ = rows f os₂) :
    analytics_overview f os₁ = analytics_overview f os₂ := by
  simp only [analytics_overview, h]

theorem analytics_drop_unmatched {f : Filters} {o : Order} (h : matchFilter f o = false)
    (l₁ l₂ : List Order) :
    analytics_overview f (l₁ ++ o :: l₂) = analytics_overview f (l₁ ++ l₂) := by
  apply analytics_congr_rows
  rw [rows_append, rows_append, rows_cons_of_neg h]

theorem totalSalesRaw_rows (f : Filters) (orders : List Order) :
    totalSalesRaw (rows f orders)
      = ((orders.filter (matchFilter f)).map (fun o => (o.items.map lineTotal).sum)).sum := by
  unfold totalSalesRaw rows
  induction orders.filter (matchFilter f) with
  | nil => simp
  | cons o os ih =>
    simp only [List.flatMap_cons, List.map_append, List.sum_append, List.map_cons,
      List.sum_cons, ih]
    congr 1
    simp [rowsOfOrder, Function.comp_def]

/-! ### Chronological comparison lemmas -/

theorem dateLtB_iff (a b : Date) : dateLtB a b = true ↔
    (a.year < b.year ∨ (a.year = b.year ∧
      (a.month < b.month ∨ (a.month = b.month ∧ a.day < b.day)))) := by
  unfold dateLtB
  split_ifs with h1 h2 h3 h4 <;> simp <;> omega

theorem dateLtB_irrefl (d : Date) : dateLtB d d = false := by
  cases h : dateLtB d d with
  | false => rfl
  | true => have := (dateLtB_iff d d).mp h; omega

theorem dateLtB_asymm {a b : Date} (h : dateLtB a b = true) : dateLtB b a = false := by
  cases h' : dateLtB b a with
  | false => rfl
  | true =>
    have h1 := (dateLtB_iff a b).mp h
    have h2 := (dateLtB_iff b a).mp h'
    omega

theorem tsLeB_midnight_left (s : Date) (k : Nat) :
    tsLeB (midnight s) ⟨s, k⟩ = true := by
  unfold tsLeB midnight
  simp [dateLtB_irrefl]

theorem tsLeB_to_midnight (e : Date) (k : Nat) :
    tsLeB ⟨e, k⟩ (midnight e) = true ↔ k = 0 := by
  unfold tsLeB midnight
  simp [dateLtB_irrefl, Nat.le_zero]

theorem tsLeB_of_dateLtB {a b : Timestamp} (h : dateLtB a.date b.date = true) :
    tsLeB a b = true := by
  unfold tsLeB
  simp [h]

theorem tsLeB_false_of_dateLtB {a b : Timestamp} (h : dateLtB b.date a.date = true) :
    tsLeB a b = false := by
  unfold tsLeB
  simp [h, dateLtB_asymm h]

/-! ### Stability of the category sort -/

theorem filter_orderedInsert_sales (s : Rat) (a : CatEntry) (l : List CatEntry) :
    (List.orderedInsert catGe a l).filter (fun e => decide (e.sales = s))
      = if a.sales = s then a :: l.filter (fun e => decide (e.sales = s))
        else l.filter (fun e => decide (e.sales = s)) := by
  induction l with
  | nil => by_cases h : a.sales = s <;> simp [List.orderedInsert, h]
  | cons b bs ih =>
    by_cases hr : catGe a b
    · by_cases h : a.sales = s <;> simp [List.orderedInsert, hr, h]
    · simp only [List.orderedInsert, if_neg hr]
      by_cases h : a.sales = s
      · have hb : ¬ (b.sales = s) := by
          intro hb
          exact hr (le_of_eq (hb.trans h.symm))
        simp [List.filter_cons, hb, ih, h]
      · by_cases hb : b.sales = s <;> simp [List.filter_cons, hb, ih, h]

theorem filter_insertionSort_sales (s : Rat) (l : List CatEntry) :
    (List.insertionSort catGe l).filter (fun e => decide (e.sales = s))
      = l.filter (fun e => decide (e.sales = s)) := by
  induction l with
  | nil => simp
  | cons a l ih =>
    by_cases h : a.sales = s <;>
      simp [List.insertionSort, filter_orderedInsert_sales, ih, List.filter_cons, h]

/-! ### Lexicographic order on ISO day strings versus chronological order -/

theorem padDigits_length (k n : Nat) : (padDigits k n).length = k := by
  induction k generalizing n with
  | zero => rfl
  | succ k ih => simp [padDigits, ih]

theorem lex_append {x y s t : List Char} (h : x.length = y.length) :
    List.Lex (· < ·) (x ++ s) (y ++ t) ↔
      (List.Lex (· < ·) x y ∨ (x = y ∧ List.Lex (· < ·) s t)) := by
  induction x generalizing y with
  | nil =>
    cases y with
    | nil => simp
    | cons b bs => simp at h
  | cons a as ih =>
    cases y with
    | nil => simp at h
    | cons b bs =>
      simp only [List.cons_append]
      constructor
      · intro hl
        cases hl with
        | cons hl' =>
          rcases (ih (by simpa using h)).mp hl' with h' | ⟨he, h''⟩
          · exact Or.inl (List.Lex.cons h')
          · exact Or.inr ⟨by rw [he], h''⟩
        | rel hab => exact Or.inl (List.Lex.rel hab)
      · intro hl
        rcases hl with hl | ⟨he, hl⟩
        · cases hl with
          | cons h' => exact List.Lex.cons ((ih (by simpa using h)).mpr (Or.inl h'))
          | rel hab => exact List.Lex.rel hab
        · obtain ⟨h1, h2⟩ := List.cons.inj he
          subst h1
          subst h2
          exact List.Lex.cons ((ih rfl).mpr (Or.inr ⟨rfl, hl⟩))

theorem digitChar_lt_iff : ∀ a < 10, ∀ b < 10,
    (Nat.digitChar a < Nat.digitChar b ↔ a < b) := by decide

theorem digitChar_inj_iff : ∀ a < 10, ∀ b < 10,
    (Nat.digitChar a = Nat.digitChar b ↔ a = b) := by decide

theorem padDigits_inj : ∀ (k a b : Nat), a < 10 ^ k → b < 10 ^ k →
    (padDigits k a = padDigits k b ↔ a = b)
  | 0, a, b, ha, hb => by
    simp only [pow_zero, Nat.lt_one_iff] at ha hb
    subst ha; subst hb; simp [padDigits]
  | k+1, a, b, ha, hb => by
    have hp : (10 : Nat) ^ (k + 1) = 10 ^ k * 10 := pow_succ 10 k
    have ha' : a / 10 < 10 ^ k := by omega
    have hb' : b / 10 < 10 ^ k := by omega
    simp only [padDigits]
    have hd := digitChar_inj_iff (a % 10) (by omega) (b % 10) (by omega)
    constructor
    · intro h
      obtain ⟨h1, h2⟩ := List.append_inj h (by simp [padDigits_length])
      have e1 := (padDigits_inj k _ _ ha' hb').mp h1
      simp only [List.cons.injEq, and_true] at h2
      have e2 := hd.mp h2
      omega
    · intro h
      subst h
      rfl

theorem padDigits_lt_iff : ∀ (k a b : Nat), a < 10 ^ k → b < 10 ^ k →
    (List.Lex (· < ·) (padDigits k a) (padDigits k b) ↔ a < b)
  | 0, a, b, ha, hb => by
    simp only [pow_zero, Nat.lt_one_iff] at ha hb
    subst ha; subst hb
    simp [padDigits]
  | k+1, a, b, ha, hb => by
    have hp : (10 : Nat) ^ (k + 1) = 10 ^ k * 10 := pow_succ 10 k
    have ha' : a / 10 < 10 ^ k := by omega
    have hb' : b / 10 < 10 ^ k := by omega
    simp only [padDigits]
    rw [lex_append (by simp [padDigits_length])]
    rw [padDigits_lt_iff k _ _ ha' hb', padDigits_inj k _ _ ha' hb',
      List.Lex.singleton_iff]
    have hd := digitChar_lt_iff (a % 10) (by omega) (b % 10) (by omega)
    rw [hd]
    omega

theorem dateToString_lex_iff {d₁ d₂ : Date} (h₁ : validDate d₁) (h₂ : validDate d₂) :
    List.Lex (· < ·) (dateToString d₁) (dateToString d₂) ↔ dateLtB d₁ d₂ = true := by
  obtain ⟨hy1, hm1a, hm1b, hd1a, hd1b⟩ := h₁
  obtain ⟨hy2, hm2a, hm2b, hd2a, hd2b⟩ := h₂
  unfold dateToString
  rw [lex_append (by simp [padDigits_length])]
  rw [padDigits_lt_iff 4 _ _ (by norm_num; omega) (by norm_num; omega)]
  rw [padDigits_inj 4 _ _ (by norm_num; omega) (by norm_num; omega)]
  rw [List.Lex.cons_iff]
  rw [lex_append (by simp [padDigits_length])]
  rw [padDigits_lt_iff 2 _ _ (by norm_num; omega) (by norm_num; omega)]
  rw [padDigits_inj 2 _ _ (by norm_num; omega) (by norm_num; omega)]
  rw [List.Lex.cons_iff]
  rw [padDigits_lt_iff 2 _ _ (by norm_num; omega) (by norm_num; omega)]
  rw [dateLtB_iff]

/-- When the pipeline emits no rows, every output field collapses to its
empty value. -/
theorem analytics_eq_empty_of_rows {f : Filters} {orders : List Order}
    (h : rows f orders = []) : analytics_overview f orders = ⟨0, 0, 0, [], []⟩ := by
  simp [analytics_overview, h, totalSalesRaw, ordersCount, catMap, trendMap,
    topCategories, trendOut, catEntries, List.insertionSort, round2_zero]

/-! ### Claim theorems -/

/-- C6: aggregating an order set in which no order passes the filters — in
particular the empty order set — yields exactly `total_sales = 0`,
`orders_count = 0`, `avg_order_value = 0`, empty `top_categories` and empty
`trend`. -/
theorem c6_empty_aggregation (f : Filters) (orders : List Order)
    (h : orders.filter (matchFilter f) = []) :
    analytics_overview f orders = ⟨0, 0, 0, [], []⟩ := by
  apply analytics_eq_empty_of_rows
  simp [rows, h]

/-- C6 witness: the empty order set with no filters. -/
theorem c6_empty_aggregation_witness :
    analytics_overview fNone [] = ⟨0, 0, 0, [], []⟩ :=
  c6_empty_aggregation fNone [] rfl

/-- C3: the reported `total_sales` is the 2-decimal rounding of the sum of
the (untruncated, unrounded) per-category breakdown, and likewise of the sum
of the per-day breakdown; both breakdown sums equal the raw total of all line
totals exactly. -/
theorem c3_totals_consistency (f : Filters) (orders : List Order) :
    (analytics_overview f orders).total_sales
        = round2 (((catMap (rows f orders)).map Prod.snd).sum)
    ∧ (analytics_overview f orders).total_sales
        = round2 (((trendMap (rows f orders)).map Prod.snd).sum)
    ∧ ((catMap (rows f orders)).map Prod.snd).sum = totalSalesRaw (rows f orders)
    ∧ ((trendMap (rows f orders)).map Prod.snd).sum = totalSalesRaw (rows f orders) := by
  have hc := catMap_sum (rows f orders)
  have ht := trendMap_sum (rows f orders)
  refine ⟨?_, ?_, ?_, ?_⟩ <;>
    simp [analytics_overview, totalSalesRaw, hc, ht]

/-- C5: `avg_order_value` is `0` when `orders_count` is `0`, and otherwise it
is the raw total divided by `orders_count`, rounded to two decimals — the
division is guarded by the zero test, so the division-by-zero branch is never
taken. -/
theorem c5_avg_order_value (f : Filters) (orders : List Order) :
    ((analytics_overview f orders).orders_count = 0 →
      (analytics_overview f orders).avg_order_value = 0)
    ∧ ((analytics_overview f orders).orders_count ≠ 0 →
      (analytics_overview f orders).avg_order_value
        = round2 (totalSalesRaw (rows f orders)
            / ((analytics_overview f orders).orders_count : Rat))) := by
  constructor <;> intro h <;>
    simp only [analytics_overview] at h ⊢ <;>
    simp [h]

/-- C5 witness: one order of total value 130 gives `orders_count = 1` and
`avg_order_value = 130`. -/
theorem c5_avg_order_value_witness :
    (analytics_overview fNone [oSimple]).avg_order_value = 130 := by
  have hcnt : (analytics_overview fNone [oSimple]).orders_count = 1 := by
    simp [analytics_overview, rows, matchFilter, dateOk, catOk, activeCat, fNone,
      oSimple, rowsOfOrder, ordersCount]
  have h := (c5_avg_order_value fNone [oSimple]).2 (by rw [hcnt]; exact one_ne_zero)
  rw [h, hcnt]
  have htot : totalSalesRaw (rows fNone [oSimple]) = 130 := by
    simp [rows, matchFilter, dateOk, catOk, activeCat, fNone, oSimple, rowsOfOrder,
      totalSalesRaw, lineTotal]
  rw [htot]
  norm_num
  rw [round2_eq 130 13000 (by norm_num) (by norm_num)]
  norm_num

/-- C8 counterexample: computation errors are replaced by substitute output
within `analytics_overview` itself — a failing database aggregate call, or a
malformed date raising in `fromisoformat`, both produce the fixed placeholder
summary instead of propagating. -/
theorem c8_counterexample :
    analytics_endpoint DbState.failing DateArg.absent DateArg.absent none
        = placeholderResponse
    ∧ analytics_endpoint (DbState.ready []) DateArg.malformed DateArg.absent none
        = placeholderResponse :=
  ⟨rfl, rfl⟩

/-- C8 (amended): the aggregation is total over well-typed inputs — every
invocation of the endpoint returns a well-defined summary, namely either the
result of the pure aggregation (when the database is usable and both dates
parse) or the fixed placeholder; in particular the endpoint catches every
error arising during the computation and silently substitutes the
placeholder rather than propagating it. -/
theorem c8_total_with_fallback (dbs : DbState) (sd ed : DateArg) (cat : Option String) :
    analytics_endpoint dbs sd ed cat = placeholderResponse
    ∨ ∃ (orders : List Order) (s e : Option Date),
        dbs = DbState.ready orders ∧ parseDateArg sd = some s ∧ parseDateArg ed = some e
        ∧ analytics_endpoint dbs sd ed cat = analytics_overview ⟨s, e, cat⟩ orders := by
  cases hsd : parseDateArg sd with
  | none => exact Or.inl (by simp [analytics_endpoint, hsd])
  | some s =>
    cases hed : parseDateArg ed with
    | none => exact Or.inl (by simp [analytics_endpoint, hsd, hed])
    | some e =>
      cases dbs with
      | ready orders =>
        exact Or.inr ⟨orders, s, e, rfl, rfl, rfl, by simp [analytics_endpoint, hsd, hed]⟩
      | unavailable => exact Or.inl (by simp [analytics_endpoint, hsd, hed])
      | failing => exact Or.inl (by simp [analytics_endpoint, hsd, hed])

/-- C10: whenever the database handle is `None`, the aggregate call raises,
or a date argument is malformed, the endpoint returns the fixed placeholder:
`total_sales = 7500`, `orders_count = 42`, `avg_order_value = 178.57`, two
`top_categories` entries summing to 5500, a five-point trend summing to 7500
— and the placeholder's top-category sales do not sum to its
`total_sales`. -/
theorem c10_placeholder_fallback (dbs : DbState) (sd ed : DateArg) (cat : Option String)
    (h : dbs = DbState.unavailable ∨ dbs = DbState.failing
      ∨ sd = DateArg.malformed ∨ ed = DateArg.malformed) :
    analytics_endpoint dbs sd ed cat = placeholderResponse
    ∧ placeholderResponse.total_sales = 7500
    ∧ placeholderResponse.orders_count = 42
    ∧ placeholderResponse.avg_order_value = 17857 / 100
    ∧ placeholderResponse.top_categories.length = 2
    ∧ (placeholderResponse.top_categories.map CatEntry.sales).sum = 5500
    ∧ placeholderResponse.trend.length = 5
    ∧ (placeholderResponse.trend.map TrendEntry.sales).sum = 7500
    ∧ (placeholderResponse.top_categories.map CatEntry.sales).sum
        ≠ placeholderResponse.total_sales := by
  refine ⟨?_, rfl, rfl, ?_, rfl, ?_, rfl, ?_, ?_⟩
  · rcases h with h | h | h | h <;> subst h
    · cases hsd : parseDateArg sd <;> cases hed : parseDateArg ed <;>
        simp [analytics_endpoint, hsd, hed]
    · cases hsd : parseDateArg sd <;> cases hed : parseDateArg ed <;>
        simp [analytics_endpoint, hsd, hed]
    · simp [analytics_endpoint, parseDateArg]
    · cases hsd : parseDateArg sd <;> simp [analytics_endpoint, hsd, parseDateArg]
  · show round2 ((7500 : Rat) / 42) = 17857 / 100
    rw [round2_eq ((7500 : Rat) / 42) 17857 (by norm_num) (by norm_num)]
    norm_num
  · simp [placeholderResponse]
    norm_num
  · simp [placeholderResponse]
    norm_num
  · simp [placeholderResponse]
    norm_num

/-- C10 witness: the unavailable-database case. -/
theorem c10_placeholder_fallback_witness :
    analytics_endpoint DbState.unavailable DateArg.absent DateArg.absent none
      = placeholderResponse :=
  (c10_placeholder_fallback DbState.unavailable DateArg.absent DateArg.absent none
    (Or.inl rfl)).1

/-- C1 counterexample: with category filter `"A"`, the order `oMixed`
qualifies through its `"A"` item, but its `"B"` item also contributes:
`total_sales` is 130 — not the 100 the claim predicts — and `"B"` appears in
the category breakdown with its 30. -/
theorem c1_category_filter_counterexample :
    (analytics_overview fCatA [oMixed]).total_sales = 130
    ∧ (analytics_overview fCatA [oMixed]).total_sales ≠ 100
    ∧ CatEntry.mk "B" 30 ∈ (analytics_overview fCatA [oMixed]).top_categories := by
  have h30 : round2 (30 : Rat) = 30 := by
    rw [round2_eq 30 3000 (by norm_num) (by norm_num)]; norm_num
  have h100 : round2 (100 : Rat) = 100 := by
    rw [round2_eq 100 10000 (by norm_num) (by norm_num)]; norm_num
  have h130 : round2 (130 : Rat) = 130 := by
    rw [round2_eq 130 13000 (by norm_num) (by norm_num)]; norm_num
  have hrows : rows fCatA [oMixed]
      = [⟨1, dateToString ⟨2025, 11, 1⟩, some "A", 100⟩,
         ⟨1, dateToString ⟨2025, 11, 1⟩, some "B", 30⟩] := by
    simp [rows, matchFilter, dateOk, catOk, activeCat, fCatA, oMixed, rowsOfOrder,
      lineTotal]
    norm_num
  refine ⟨?_, ?_, ?_⟩
  · show round2 (totalSalesRaw (rows fCatA [oMixed])) = 130
    rw [hrows]
    show round2 (100 + (30 + 0)) = 130
    norm_num [h130]
  · show round2 (totalSalesRaw (rows fCatA [oMixed])) ≠ 100
    rw [hrows]
    show round2 (100 + (30 + 0)) ≠ 100
    norm_num [h130]
  · show CatEntry.mk "B" 30 ∈ topCategories (catMap (rows fCatA [oMixed]))
    rw [hrows]
    have hle : ((30 : Rat) ≤ 100) := by norm_num
    simp [catMap, addToMap, unknownize, topCategories, catEntries,
      List.insertionSort, List.orderedInsert, catGe, h30, h100, hle]

/-- C1 (amended): with an active category filter, an order qualifies exactly
when at least one of its items matches, and then ALL of its line items —
including those of other categories — contribute to the sums: the raw total
is the sum over qualifying orders of the totals of all their items, and an
order with no item of the filtered category contributes to no output field at
all. -/
theorem c1_category_filter_amended (f : Filters) (c : String) (orders : List Order)
    (hc : activeCat f = some c) :
    (totalSalesRaw (rows f orders)
        = ((orders.filter (fun o => dateOk f o
              && o.items.any (fun it => decide (it.category = some c)))).map
            (fun o => (o.items.map lineTotal).sum)).sum)
    ∧ (∀ o : Order, (∀ it ∈ o.items, it.category ≠ some c) →
        ∀ l₁ l₂ : List Order,
          analytics_overview f (l₁ ++ o :: l₂) = analytics_overview f (l₁ ++ l₂)) := by
  constructor
  · rw [totalSalesRaw_rows]
    have hf : List.filter (matchFilter f) orders
        = List.filter (fun o => dateOk f o
            && o.items.any (fun it => decide (it.category = some c))) orders := by
      apply List.filter_congr
      intro o _
      simp [matchFilter, catOk, hc]
    rw [hf]
  · intro o ho l₁ l₂
    apply analytics_drop_unmatched
    have hany : o.items.any (fun it => decide (it.category = some c)) = false := by
      rw [List.any_eq_false]
      intro it hit
      simpa using ho it hit
    simp [matchFilter, catOk, hc, hany]

/-- C1 amended witness: dropping the all-`"B"` order `oNoA` from the input
does not change the aggregation under filter `"A"`. -/
theorem c1_category_filter_amended_witness :
    analytics_overview fCatA [oMixed, oNoA] = analytics_overview fCatA [oMixed] := by
  have h := (c1_category_filter_amended fCatA "A" [oMixed, oNoA]
    (by simp [fCatA, activeCat])).2 oNoA
    (by intro it hit; simp [oNoA] at hit; simp [hit]) [oMixed] []
  simpa using h

/-- C2 counterexample: the order `oLate` is dated exactly on the `end_date`
bound `2025-11-02` (at 01:00), yet the aggregation excludes it, because the
bound is compared against midnight of `end_date`. -/
theorem c2_date_bounds_counterexample :
    oLate.order_date.date = ⟨2025, 11, 2⟩
    ∧ fEnd.end_date = some ⟨2025, 11, 2⟩
    ∧ (analytics_overview fEnd [oLate]).orders_count = 0
    ∧ (analytics_overview fEnd [oLate]).total_sales = 0 := by
  have hm : matchFilter fEnd oLate = false := by
    simp [matchFilter, dateOk, catOk, activeCat, fEnd, oLate, tsLeB, dateLtB, midnight]
  have hrows : rows fEnd [oLate] = [] := by
    simp [rows, List.filter_cons, hm]
  have he := analytics_eq_empty_of_rows hrows
  exact ⟨rfl, rfl, by rw [he], by rw [he]⟩

/-- C2 (amended): the date bounds compare the order's full timestamp against
midnight of the given calendar dates.  Consequently: with no bounds there is
no date filtering; any time of day on `start_date` passes the start bound;
exactly midnight of `end_date` passes the end bound, but any later time on
the `end_date` day is excluded; a day before `start_date` or after `end_date`
is excluded; and an excluded order yields the empty aggregation on its
own. -/
theorem c2_date_bounds_amended (f : Filters) (o : Order) :
    (f.start_date = none → f.end_date = none → dateOk f o = true)
    ∧ (∀ s : Date, f.start_date = some s → o.order_date.date = s →
        (∀ e : Date, f.end_date = some e → tsLeB o.order_date (midnight e) = true) →
        dateOk f o = true)
    ∧ (∀ e : Date, f.end_date = some e → o.order_date = midnight e →
        (∀ s : Date, f.start_date = some s → tsLeB (midnight s) o.order_date = true) →
        dateOk f o = true)
    ∧ (∀ e : Date, f.end_date = some e → o.order_date.date = e → 0 < o.order_date.secs →
        dateOk f o = false)
    ∧ (∀ s : Date, f.start_date = some s → dateLtB o.order_date.date s = true →
        dateOk f o = false)
    ∧ (∀ e : Date, f.end_date = some e → dateLtB e o.order_date.date = true →
        dateOk f o = false)
    ∧ (dateOk f o = false → analytics_overview f [o] = ⟨0, 0, 0, [], []⟩) := by
  refine ⟨?_, ?_, ?_, ?_, ?_, ?_, ?_⟩
  · intro hs he
    simp [dateOk, hs, he]
  · intro s hs hdate hend
    have h1 : tsLeB (midnight s) o.order_date = true := by
      rw [show o.order_date = ⟨s, o.order_date.secs⟩ from by
        cases h : o.order_date with
        | mk dd kk => rw [h] at hdate; simp at hdate ⊢; exact hdate]
      exact tsLeB_midnight_left s _
    cases he : f.end_date with
    | none => simp [dateOk, hs, he, h1]
    | some e => simp [dateOk, hs, he, h1, hend e he]
  · intro e he hmid hstart
    have h2 : tsLeB o.order_date (midnight e) = true := by
      rw [hmid]
      exact (tsLeB_to_midnight e 0).mpr rfl
    cases hs : f.start_date with
    | none => simp [dateOk, hs, he, h2]
    | some s => simp [dateOk, hs, he, h2, hstart s hs]
  · intro e he hdate hpos
    have h2 : tsLeB o.order_date (midnight e) = false := by
      cases h : o.order_date with
      | mk od k =>
        rw [h] at hdate hpos
        simp at hdate hpos
        rw [hdate]
        exact Bool.eq_false_iff.mpr (fun hcontra =>
          (Nat.pos_iff_ne_zero.mp hpos) ((tsLeB_to_midnight e k).mp hcontra))
    simp [dateOk, he, h2]
  · intro s hs hlt
    have h1 : tsLeB (midnight s) o.order_date = false := tsLeB_false_of_dateLtB hlt
    simp [dateOk, hs, h1]
  · intro e he hlt
    have h2 : tsLeB o.order_date (midnight e) = false := tsLeB_false_of_dateLtB hlt
    simp [dateOk, he, h2]
  · intro h
    apply analytics_eq_empty_of_rows
    have hm : matchFilter f o = false := by simp [matchFilter, h]
    simp [rows, List.filter_cons, hm]

/-- C2 amended witness: `oLate`, at 01:00 on the end-date day of `fEnd`, is
rejected by the date filter. -/
theorem c2_date_bounds_amended_witness : dateOk fEnd oLate = false :=
  (c2_date_bounds_amended fEnd oLate).2.2.2.1 ⟨2025, 11, 2⟩ rfl rfl (by norm_num [oLate])

/-- C9: when every line item conforms to the `OrderItem` schema (so carries
no category), every entry of the category breakdown is bucketed under the
literal `"Unknown"`, and any non-empty category filter matches no order and
yields the empty summary. -/
theorem c9_schema_items_unknown (f : Filters) (orders : List Order)
    (h : ∀ o ∈ orders, ∀ it ∈ o.items, it.category = none) :
    (∀ e ∈ (analytics_overview f orders).top_categories, e.category = "Unknown")
    ∧ (∀ c : String, c ≠ "" → f.category = some c →
        analytics_overview f orders = ⟨0, 0, 0, [], []⟩) := by
  constructor
  · intro e he
    have hrowcat : ∀ r ∈ rows f orders, r.cat = none := by
      intro r hr
      simp only [rows, List.mem_flatMap, List.mem_filter] at hr
      obtain ⟨o, ⟨ho, _⟩, hro⟩ := hr
      simp only [rowsOfOrder, List.mem_map] at hro
      obtain ⟨it, hit, rfl⟩ := hro
      exact h o ho it hit
    have he' : e ∈ List.insertionSort catGe (catEntries (catMap (rows f orders))) := by
      have : (analytics_overview f orders).top_categories
          = (List.insertionSort catGe (catEntries (catMap (rows f orders)))).take 5 := by
        simp [analytics_overview, topCategories]
      rw [this] at he
      exact (List.take_sublist 5 _).mem he
    rw [List.mem_insertionSort] at he'
    simp only [catEntries, List.mem_map] at he'
    obtain ⟨p, hp, rfl⟩ := he'
    obtain ⟨r, hr, hk⟩ := mem_catMap_key _ hp
    simp [hk, hrowcat r hr, unknownize]
  · intro c hcne hcat
    apply analytics_eq_empty_of_rows
    have hfilter : orders.filter (matchFilter f) = [] := by
      rw [List.filter_eq_nil_iff]
      intro o ho
      have hany : o.items.any (fun it => decide (it.category = some c)) = false := by
        rw [List.any_eq_false]
        intro it hit
        simp [h o ho it hit]
      simp [matchFilter, catOk, activeCat, hcat, hcne, hany]
    simp [rows, hfilter]

/-- C9 witness: a schema-conforming (category-free) order is reported under
`"Unknown"`, and filtering it by `"A"` yields the empty summary. -/
theorem c9_schema_items_unknown_witness :
    (∀ e ∈ (analytics_overview fNone [oPlain]).top_categories, e.category = "Unknown")
    ∧ analytics_overview fCatA [oPlain] = ⟨0, 0, 0, [], []⟩ := by
  constructor
  · exact (c9_schema_items_unknown fNone [oPlain]
      (by intro o ho it hit; simp [oPlain] at ho; simp [ho, oPlain] at hit; simp [hit])).1
  · exact (c9_schema_items_unknown fCatA [oPlain]
      (by intro o ho it hit; simp [oPlain] at ho; simp [ho, oPlain] at hit; simp [hit])).2
      "A" (by simp) rfl

/-- C4: `top_categories` has at most five entries; with more than five
distinct categories it has exactly five; the category-map keys are distinct
(so its length counts distinct categories); the list is sorted descending by
rounded sales; every category left out has rounded sales at most that of
every retained entry (in particular the fifth); and the sort is stable —
within any sales tie class the original iteration order of the category map
is preserved (the retained entries are a prefix of each tie class). -/
theorem c4_top_categories (f : Filters) (orders : List Order) :
    (analytics_overview f orders).top_categories.length ≤ 5
    ∧ (5 < (catMap (rows f orders)).length →
        (analytics_overview f orders).top_categories.length = 5)
    ∧ ((catMap (rows f orders)).map Prod.fst).Nodup
    ∧ (analytics_overview f orders).top_categories.Sorted catGe
    ∧ (∀ e ∈ (analytics_overview f orders).top_categories,
        ∀ p ∈ catMap (rows f orders),
          (∀ e' ∈ (analytics_overview f orders).top_categories, e'.category ≠ p.1) →
            round2 p.2 ≤ e.sales)
    ∧ (∀ s : Rat, ∃ rest,
        (catEntries (catMap (rows f orders))).filter (fun e => decide (e.sales = s))
          = (analytics_overview f orders).top_categories.filter
              (fun e => decide (e.sales = s)) ++ rest) := by
  have hTC : (analytics_overview f orders).top_categories
      = (List.insertionSort catGe (catEntries (catMap (rows f orders)))).take 5 := by
    simp [analytics_overview, topCategories]
  have hsort := List.sorted_insertionSort catGe (catEntries (catMap (rows f orders)))
  have hlen : (List.insertionSort catGe (catEntries (catMap (rows f orders)))).length
      = (catMap (rows f orders)).length := by
    rw [List.length_insertionSort]
    simp [catEntries]
  refine ⟨?_, ?_, catMap_keys_nodup _, ?_, ?_, ?_⟩
  · rw [hTC]
    simp [List.length_take]
  · intro h5
    rw [hTC]
    rw [List.length_take, hlen]
    omega
  · rw [hTC]
    exact List.Pairwise.sublist (List.take_sublist 5 _) hsort
  · intro e he p hp hne
    have hmem : CatEntry.mk p.1 (round2 p.2)
        ∈ List.insertionSort catGe (catEntries (catMap (rows f orders))) := by
      rw [List.mem_insertionSort]
      simp only [catEntries, List.mem_map]
      exact ⟨p, hp, rfl⟩
    have hnotin : CatEntry.mk p.1 (round2 p.2)
        ∉ (analytics_overview f orders).top_categories := by
      intro hin
      exact hne _ hin rfl
    rw [hTC] at he hnotin
    have hdrop : CatEntry.mk p.1 (round2 p.2)
        ∈ (List.insertionSort catGe (catEntries (catMap (rows f orders)))).drop 5 := by
      have hsplit : CatEntry.mk p.1 (round2 p.2)
          ∈ (List.insertionSort catGe (catEntries (catMap (rows f orders)))).take 5
            ++ (List.insertionSort catGe (catEntries (catMap (rows f orders)))).drop 5 := by
        rw [List.take_append_drop]
        exact hmem
      rcases List.mem_append.mp hsplit with h | h
      · exact absurd h hnotin
      · exact h
    exact List.Sorted.rel_of_mem_take_of_mem_drop hsort he hdrop
  · intro s
    refine ⟨((List.insertionSort catGe (catEntries (catMap (rows f orders)))).drop 5).filter
        (fun e => decide (e.sales = s)), ?_⟩
    rw [← filter_insertionSort_sales s, hTC]
    conv_lhs => rw [← List.take_append_drop 5
      (List.insertionSort catGe (catEntries (catMap (rows f orders))))]
    rw [List.filter_append]

/-- C4 witness: six distinct categories are truncated to exactly five. -/
theorem c4_top_categories_witness :
    (analytics_overview fNone [oSix]).top_categories.length = 5 := by
  apply (c4_top_categories fNone [oSix]).2.1
  have : catMap (rows fNone [oSix])
      = [("A", 0 + lineTotal ⟨"q1", 1, 60, some "A"⟩),
         ("B", 0 + lineTotal ⟨"q2", 1, 50, some "B"⟩),
         ("C", 0 + lineTotal ⟨"q3", 1, 40, some "C"⟩),
         ("D", 0 + lineTotal ⟨"q4", 1, 30, some "D"⟩),
         ("E", 0 + lineTotal ⟨"q5", 1, 20, some "E"⟩),
         ("F", 0 + lineTotal ⟨"q6", 1, 10, some "F"⟩)] := by
    simp [rows, matchFilter, dateOk, catOk, activeCat, fNone, oSix, rowsOfOrder,
      catMap, addToMap, unknownize]
  rw [this]
  simp

/-- C7: the trend is a permutation of the per-day map entries with each value
rounded to two decimals, sorted ascending by day string; and on valid dates
the lexicographic order on the ISO `YYYY-MM-DD` day strings coincides with
chronological order. -/
theorem c7_trend_sorted (f : Filters) (orders : List Order) (d₁ d₂ : Date)
    (h₁ : validDate d₁) (h₂ : validDate d₂) :
    (analytics_overview f orders).trend.Pairwise
        (fun a b : TrendEntry => a.date ≤ b.date)
    ∧ (analytics_overview f orders).trend.Perm
        ((trendMap (rows f orders)).map (fun p => TrendEntry.mk p.1 (round2 p.2)))
    ∧ (List.Lex (· < ·) (dateToString d₁) (dateToString d₂) ↔ dateLtB d₁ d₂ = true)
    ∧ (dateToString d₁ < dateToString d₂ ↔ dateLtB d₁ d₂ = true) := by
  have hT : (analytics_overview f orders).trend = trendOut (trendMap (rows f orders)) := by
    simp [analytics_overview]
  refine ⟨?_, ?_, dateToString_lex_iff h₁ h₂, ?_⟩
  · rw [hT]
    unfold trendOut
    exact List.Pairwise.map _ (fun a b h => h) (List.sorted_insertionSort dayLe _)
  · rw [hT]
    unfold trendOut
    exact (List.perm_insertionSort dayLe _).map _
  · have hbridge : ∀ x y : List Char, x < y ↔ List.Lex (· < ·) x y := fun x y => Iff.rfl
    rw [hbridge]
    exact dateToString_lex_iff h₁ h₂

/-- C7 witness: `2025-11-01` sorts before `2025-11-02` lexicographically and
chronologically. -/
theorem c7_trend_sorted_witness :
    List.Lex (· < ·) (dateToString ⟨2025, 11, 1⟩) (dateToString ⟨2025, 11, 2⟩)
      ↔ dateLtB ⟨2025, 11, 1⟩ ⟨2025, 11, 2⟩ = true :=
  (c7_trend_sorted fNone [] ⟨2025, 11, 1⟩ ⟨2025, 11, 2⟩ (by decide) (by decide)).2.2.1

end Dashboard
